import Mathlib

/-!
# discussions-comment-notify-action: a verification development of `main.go`

The program reads a GitHub discussion-comment event, formats one line of text,
rewrites `@login` mentions with a mapping fetched from the repository, and posts
the text to Slack.  The definitions below follow `main.go` function by function;
the standard-library calls it makes (`fmt.Sprintf`, `strings.ReplaceAll`,
`os.ReadFile`, `encoding/json`, `net/http`) are either modelled from their
documented behaviour or taken as fields of a `World`.
-/

set_option autoImplicit false

namespace DiscussionsNotify

/-! ## Strings -/

/-- A Go string.  Every string that reaches the formatter and the rewriter comes
out of `json.Unmarshal`, hence is valid UTF-8, and on valid UTF-8 concatenation
and literal substring replacement act alike on bytes and on code points; the
model keeps the code points. -/
abbrev GoString := List Char

/-- The marker `fmt` writes for the verb `c` when no operand is left for it. -/
def missingOperand (c : Char) : GoString := "%!".toList ++ c :: "(MISSING)".toList

/-- The marker `fmt` appends when operands are left over, `type=value` for each;
the operands of this model are strings. -/
def extraOperands (args : List GoString) : GoString :=
  "%!(EXTRA ".toList ++
    List.intercalate ", ".toList (args.map fun a => "string=".toList ++ a) ++ ")".toList

/-- The fragment of `fmt.Sprintf` / `fmt.Errorf` that `main.go` uses.  Operands
are handed over already rendered (a string as itself, an error as its `Error()`
text, an int in decimal); each of the verbs `%s`, `%v`, `%d`, `%w` consumes the
next operand and writes it unchanged, `%%` writes a percent sign, and every
other character of the format is copied.  Verbs other than these four do not
occur in `main.go` and are copied like text. -/
def sprintf : List Char → List GoString → GoString
  | [], [] => []
  | [], a :: args => extraOperands (a :: args)
  | ['%'], args => "%!(NOVERB)".toList ++ sprintf [] args
  | '%' :: c :: fmt, args =>
    if c = '%' then '%' :: sprintf fmt args
    else if c = 's' ∨ c = 'v' ∨ c = 'd' ∨ c = 'w' then
      match args with
      | a :: rest => a ++ sprintf fmt rest
      | [] => missingOperand c ++ sprintf fmt []
    else '%' :: c :: sprintf fmt args
  | c :: fmt, args => c :: sprintf fmt args

/-- The scan behind `strings.ReplaceAll s old new` for a non-empty `old`: walk
`s` from the left; where `old` starts, write `new` and skip the rest of the
occurrence (`skip` counts the characters still to be skipped); elsewhere copy
one character.  This yields the leftmost non-overlapping occurrences, as
`strings.Replace` with `n < 0` does through `Index`. -/
def replaceScan (old new : GoString) : Nat → GoString → GoString
  | _, [] => []
  | k + 1, _ :: cs => replaceScan old new k cs
  | 0, c :: cs =>
    if old.isPrefixOf (c :: cs) then new ++ replaceScan old new (old.length - 1) cs
    else c :: replaceScan old new 0 cs

/-- The Go function `strings.ReplaceAll`.  With an empty `old` Go inserts `new`
before every code point and at the end; otherwise every non-overlapping
occurrence of `old`, found from the left, is replaced by `new`.  (Go returns `s`
at once when `old == new`; the scan gives the same text.) -/
def replaceAll (s old new : GoString) : GoString :=
  if old = [] then new ++ s.flatMap (fun c => c :: new)
  else replaceScan old new 0 s

/-! ## Data model (`main.go`, lines 14-50) -/

structure User where
  Login : GoString
  HTMLURL : GoString
  AvatarURL : GoString
  deriving DecidableEq, Repr

structure Comment where
  Body : GoString
  HTMLURL : GoString
  CreatedAt : GoString
  User : User
  deriving DecidableEq, Repr

structure Category where
  Name : GoString
  Description : GoString
  deriving DecidableEq, Repr

structure Discussion where
  Title : GoString
  HTMLURL : GoString
  CreatedAt : GoString
  Category : Category
  deriving DecidableEq, Repr

structure Event where
  Action : GoString
  Comment : Comment
  Discussion : Discussion
  deriving DecidableEq, Repr

/-- The zero value `Event{}`: every string field is empty. -/
def Event.zero : Event :=
  { Action := [],
    Comment := { Body := [], HTMLURL := [], CreatedAt := [],
                 User := { Login := [], HTMLURL := [], AvatarURL := [] } },
    Discussion := { Title := [], HTMLURL := [], CreatedAt := [],
                    Category := { Name := [], Description := [] } } }

/-- The Go type `SlackMentionMapList`, a `map[string]string`.  Go iterates a map
in an order of its own choosing, so the model is the list of (login, Slack id)
pairs in the order the `range` loop visits them; a nil map and an empty map are
both the empty list. -/
abbrev SlackMentionMapList := List (GoString × GoString)

/-- Keys of a Go map are pairwise distinct. -/
def distinctLogins (m : SlackMentionMapList) : Prop := (m.map Prod.fst).Nodup

structure SlackMessage where
  Channel : GoString
  Text : GoString
  deriving DecidableEq, Repr

/-! ## Message Formatter and Mention Rewriter -/

/-- The function `createSlackMessage` (lines 122-133). -/
def createSlackMessage (event : Event) : GoString :=
  sprintf "New comment by [%s](%s) on [%s](%s) in category %s: %s".toList
    [event.Comment.User.Login,
     event.Comment.User.HTMLURL,
     event.Discussion.Title,
     event.Discussion.HTMLURL,
     event.Discussion.Category.Name,
     event.Comment.Body]

/-- The search text `"@"+githubUsername` of line 195. -/
def mentionPattern (githubUsername : GoString) : GoString := '@' :: githubUsername

/-- The replacement text `"<@"+slackUserID+">"` of line 195. -/
def mentionToken (slackUserID : GoString) : GoString := '<' :: '@' :: (slackUserID ++ ['>'])

/-- The function `convertToSlackMention` (lines 193-199): one `ReplaceAll` per
pair, each applied to the text the previous one left. -/
def convertToSlackMention (text : GoString) (mentionMap : SlackMentionMapList) : GoString :=
  mentionMap.foldl
    (fun text p => replaceAll text (mentionPattern p.1) (mentionToken p.2)) text

/-- The text `needle` occurs in `hay` as a contiguous substring. -/
def containsSubstr (hay needle : GoString) : Prop := needle <:+: hay

instance (hay needle : GoString) : Decidable (containsSubstr hay needle) := by
  unfold containsSubstr; infer_instance

/-! ## The world outside the process -/

/-- A Go `error` is kept as its `Error()` text; `none` is the nil error. -/
abbrev GoError := Option GoString

/-- An error returned by the `os` package: what `os.IsNotExist` answers for it
and its text. -/
structure OsError where
  isNotExist : Bool
  text : GoString
  deriving DecidableEq, Repr

/-- What the file system holds under a name, as far as `os.ReadFile` can tell. -/
inductive FileState where
  /-- Opening fails because no such file exists. -/
  | missing
  /-- Opening fails for another reason (permissions, ...). -/
  | openFails (text : GoString)
  /-- The file opens but a read fails; `os.ReadFile` returns what it has read. -/
  | readFails (soFar : GoString) (text : GoString)
  /-- The file is read to its end. -/
  | readable (data : GoString)
  deriving DecidableEq, Repr

/-- The two results of `os.ReadFile`: the data (`none` is the nil slice) and the
error. -/
structure ReadFileResult where
  data : Option GoString
  err : Option OsError
  deriving DecidableEq, Repr

/-- The Go function `os.ReadFile`.  When the open fails it returns a nil slice
with the error; the empty name never names a file, so opening it fails with a
not-exist error. -/
def osReadFile (files : GoString → FileState) (name : GoString) : ReadFileResult :=
  let notExist : OsError :=
    { isNotExist := true,
      text := "open ".toList ++ name ++ ": no such file or directory".toList }
  if name = [] then { data := none, err := some notExist }
  else
    match files name with
    | FileState.missing => { data := none, err := some notExist }
    | FileState.openFails text => { data := none, err := some { isNotExist := false, text := text } }
    | FileState.readFails soFar text =>
      { data := some soFar, err := some { isNotExist := false, text := text } }
    | FileState.readable data => { data := some data, err := none }

/-- An `http.Request` as the program builds it. -/
structure Request where
  Method : GoString
  URL : GoString
  Header : List (GoString × GoString)
  Body : Option GoString
  deriving DecidableEq, Repr

/-- An `http.Response` as the program sees it: the numeric status code, the
status text (such as `404 Not Found`), and what `io.ReadAll(resp.Body)` gives. -/
structure Response where
  StatusCode : Nat
  Status : GoString
  Body : Except GoString GoString

/-- The value of `http.StatusOK`. -/
def StatusOK : Nat := 200

/-- Everything the process reads from outside itself, and the library decoders
it calls. -/
structure World where
  /-- The function `os.Getenv`. -/
  getenv : GoString → GoString
  /-- The file system under `os.ReadFile`. -/
  files : GoString → FileState
  /-- The call `json.Unmarshal(data, &event)` on a zero `Event`. -/
  unmarshalEvent : GoString → Except GoString Event
  /-- The error of `http.NewRequest(method, url, _)`, `none` when it succeeds. -/
  newRequest : GoString → GoString → GoError
  /-- The call `client.Do(req)`. -/
  clientDo : Request → Except GoString Response
  /-- The call `json.Unmarshal(body, &result)` into a generic object followed by
  `result["content"].(string)`: `none` when the field is absent or no string. -/
  unmarshalContent : GoString → Except GoString (Option GoString)
  /-- The call `base64.StdEncoding.DecodeString`. -/
  base64Decode : GoString → Except GoString GoString
  /-- The call `json.Unmarshal(fileContent, &mentionMap)`. -/
  unmarshalMentionMap : GoString → Except GoString SlackMentionMapList
  /-- The call `json.Marshal(payload)`. -/
  marshalSlackMessage : SlackMessage → Except GoString GoString

/-- What a run does that can be seen from outside, in order. -/
inductive Step where
  /-- A line written by `fmt.Println`. -/
  | println (line : GoString)
  /-- A request handed to `client.Do`. -/
  | httpDo (req : Request)
  /-- An entry into `SendMessage`. -/
  | sendMessage (token channel message : GoString)
  /-- An entry into `getEvent`, recorded by `main` where it makes the call. -/
  | getEvent (eventPath : GoString)
  deriving DecidableEq, Repr

/-- A finished run: what it did and the exit code of the process. -/
structure Outcome where
  trace : List Step
  exitCode : Nat
  deriving DecidableEq, Repr

/-! ## The I/O functions of `main.go` -/

/-- The function `getGithubInput` (lines 101-103). -/
def getGithubInput (w : World) (name : GoString) : GoString :=
  w.getenv ("INPUT_".toList ++ name)

/-- The function `getEvent` (lines 105-120): the event and the error it
returns. -/
def getEvent (w : World) (eventPath : GoString) : Event × GoError :=
  let event := Event.zero
  let r := osReadFile w.files eventPath
  match r.err.filter (fun err => !err.isNotExist) with
  | some err => (Event.zero, some (sprintf "could not read event file: %w".toList [err.text]))
  | none =>
    match r.data with
    | some eventData =>
      match w.unmarshalEvent eventData with
      | Except.error e =>
        (Event.zero, some (sprintf "failed to unmarshal event payload: %w".toList [e]))
      | Except.ok decoded => (decoded, none)
    | none => (event, none)

/-- The request built by `fetchGitHubFileContent` (lines 136-143). -/
def fetchRequest (w : World) (filePath : GoString) : Request :=
  { Method := "GET".toList,
    URL := "https://api.github.com/repos/".toList ++ w.getenv "GITHUB_REPOSITORY".toList
            ++ "/contents/".toList ++ filePath,
    Header := [("Authorization".toList,
                "token ".toList ++ getGithubInput w "GITHUB_TOKEN".toList)],
    Body := none }

/-- The function `fetchGitHubFileContent` (lines 135-177): its result and the
steps it takes. -/
def fetchGitHubFileContent (w : World) (filePath : GoString) :
    Except GoString GoString × List Step :=
  let req := fetchRequest w filePath
  match w.newRequest req.Method req.URL with
  | some err => (Except.error (sprintf "error creating request: %v".toList [err]), [])
  | none =>
    match w.clientDo req with
    | Except.error err =>
      (Except.error (sprintf "error sending request: %v".toList [err]), [Step.httpDo req])
    | Except.ok resp =>
      if resp.StatusCode ≠ StatusOK then
        (Except.error
          (sprintf "error fetching file: status code %d".toList [(Nat.repr resp.StatusCode).toList]),
         [Step.httpDo req])
      else
        match resp.Body with
        | Except.error err =>
          (Except.error (sprintf "error reading response body: %v".toList [err]),
           [Step.httpDo req])
        | Except.ok body =>
          match w.unmarshalContent body with
          | Except.error err =>
            (Except.error (sprintf "error unmarshalling JSON response: %v".toList [err]),
             [Step.httpDo req])
          | Except.ok none =>
            (Except.error (sprintf "error retrieving content from JSON response".toList []),
             [Step.httpDo req])
          | Except.ok (some content) =>
            match w.base64Decode (replaceAll content ['\n'] []) with
            | Except.error err =>
              (Except.error (sprintf "error decoding content: %v".toList [err]),
               [Step.httpDo req])
            | Except.ok decodedContent => (Except.ok decodedContent, [Step.httpDo req])

/-- The function `readSlackMentionMap` (lines 179-191). -/
def readSlackMentionMap (w : World) (filePath : GoString) :
    Except GoString SlackMentionMapList × List Step :=
  match fetchGitHubFileContent w filePath with
  | (Except.error err, steps) =>
    (Except.error (sprintf "error fetching file content: %v".toList [err]), steps)
  | (Except.ok fileContent, steps) =>
    match w.unmarshalMentionMap fileContent with
    | Except.error err =>
      (Except.error (sprintf "error unmarshalling mention map: %v".toList [err]), steps)
    | Except.ok mentionMap => (Except.ok mentionMap, steps)

/-- The request built by `SendMessage` (lines 214-220). -/
def sendRequest (token : GoString) (messageBytes : GoString) : Request :=
  { Method := "POST".toList,
    URL := "https://slack.com/api/chat.postMessage".toList,
    Header := [("Content-Type".toList, "application/json".toList),
               ("Authorization".toList, "Bearer ".toList ++ token)],
    Body := some messageBytes }

/-- The function `SendMessage` (lines 201-234): the error it returns and the
steps it takes, the first of which records the call itself. -/
def SendMessage (w : World) (token channel message : GoString) : GoError × List Step :=
  let entered := Step.sendMessage token channel message
  let payload : SlackMessage := { Channel := channel, Text := message }
  match w.marshalSlackMessage payload with
  | Except.error err => (some (sprintf "error encoding message: %v".toList [err]), [entered])
  | Except.ok messageBytes =>
    let req := sendRequest token messageBytes
    match w.newRequest req.Method req.URL with
    | some err => (some (sprintf "error creating request: %v".toList [err]), [entered])
    | none =>
      match w.clientDo req with
      | Except.error err =>
        (some (sprintf "error sending request: %v".toList [err]), [entered, Step.httpDo req])
      | Except.ok resp =>
        if resp.StatusCode ≠ StatusOK then
          (some (sprintf "error status not OK: %v".toList [resp.Status]),
           [entered, Step.httpDo req])
        else (none, [entered, Step.httpDo req])

/-- The function `main` (lines 52-99); `os.Exit(1)` ends the run with code 1,
falling off the end of `main` ends it with code 0.  The call of `getEvent` is
recorded in the trace. -/
def main (w : World) : Outcome :=
  let eventPath := w.getenv "GITHUB_EVENT_PATH".toList
  if eventPath = [] then
    { trace := [Step.println "GITHUB_EVENT_PATH not found".toList], exitCode := 1 }
  else
    let loaded := Step.getEvent eventPath
    match getEvent w eventPath with
    | (_, some err) => { trace := [loaded, Step.println err], exitCode := 1 }
    | (event, none) =>
      let message := createSlackMessage event
      let mentionMapPath := getGithubInput w "SLACK_MENTION_MAP_PATH".toList
      if mentionMapPath = [] then
        { trace := [loaded, Step.println "SLACK_MENTION_MAP_PATH not found".toList],
          exitCode := 1 }
      else
        match readSlackMentionMap w mentionMapPath with
        | (Except.error err, steps) =>
          { trace := loaded :: steps ++ [Step.println err], exitCode := 1 }
        | (Except.ok mentionMap, steps) =>
          let message := convertToSlackMention message mentionMap
          let slackToken := getGithubInput w "SLACK_API_TOKEN".toList
          if slackToken = [] then
            { trace := loaded :: steps ++ [Step.println "SLACK_API_TOKEN not found".toList],
              exitCode := 1 }
          else
            let slackChannel := getGithubInput w "SLACK_CHANNEL".toList
            if slackChannel = [] then
              { trace := loaded :: steps ++ [Step.println "SLACK_CHANNEL not found".toList],
                exitCode := 1 }
            else
              match SendMessage w slackToken slackChannel message with
              | (some err, sent) =>
                { trace := loaded :: steps ++ sent ++ [Step.println err], exitCode := 1 }
              | (none, sent) =>
                { trace :=
                    loaded :: steps ++ sent ++ [Step.println "Message sent successfully".toList],
                  exitCode := 0 }

/-- A step that posts to the chat API or enters `SendMessage`. -/
def Step.isChatStep : Step → Bool
  | Step.println _ => false
  | Step.httpDo req => req.Method == "POST".toList
  | Step.sendMessage _ _ _ => true
  | Step.getEvent _ => false

/-- A step that enters `getEvent`. -/
def Step.isGetEvent : Step → Bool
  | Step.getEvent _ => true
  | _ => false

/-! ## Conditions on a mention map -/

/-- The login contains neither `<` nor `>`. -/
def avoidsBrackets (login : GoString) : Prop := '<' ∉ login ∧ '>' ∉ login

instance (login : GoString) : Decidable (avoidsBrackets login) := by
  unfold avoidsBrackets; infer_instance

/-- No replacement token `<@slackID>` of the map contains `@login` for any login
of the map. -/
def tokensAvoidMentions (m : SlackMentionMapList) : Prop :=
  ∀ p ∈ m, ∀ q ∈ m, ¬ containsSubstr (mentionToken q.2) (mentionPattern p.1)

instance (m : SlackMentionMapList) : Decidable (tokensAvoidMentions m) := by
  unfold tokensAvoidMentions; infer_instance

/-- No login of the map is a substring of another login's replacement token. -/
def noLoginInAnotherToken (m : SlackMentionMapList) : Prop :=
  ∀ p ∈ m, ∀ q ∈ m, p.1 ≠ q.1 → ¬ containsSubstr (mentionToken q.2) p.1

instance (m : SlackMentionMapList) : Decidable (noLoginInAnotherToken m) := by
  unfold noLoginInAnotherToken; infer_instance

/-- No login of the map is a prefix of another login of the map. -/
def noLoginPrefixOfAnother (m : SlackMentionMapList) : Prop :=
  ∀ p ∈ m, ∀ q ∈ m, p.1 ≠ q.1 → ¬ p.1 <+: q.1

instance (m : SlackMentionMapList) : Decidable (noLoginPrefixOfAnother m) := by
  unfold noLoginPrefixOfAnother; infer_instance

/-- No login of the map contains `@`, `<` or `>`. -/
def loginsPlain (m : SlackMentionMapList) : Prop :=
  ∀ p ∈ m, '@' ∉ p.1 ∧ avoidsBrackets p.1

instance (m : SlackMentionMapList) : Decidable (loginsPlain m) := by
  unfold loginsPlain; infer_instance

instance (m : SlackMentionMapList) : Decidable (distinctLogins m) := by
  unfold distinctLogins; infer_instance

/-! ## Sample inputs -/

/-- The event of the end-to-end example. -/
def sampleEvent : Event :=
  { Action := [],
    Comment := { Body := "Thanks @alice".toList, HTMLURL := [], CreatedAt := [],
                 User := { Login := "bob".toList, HTMLURL := "https://github.com/bob".toList,
                           AvatarURL := [] } },
    Discussion := { Title := "Q&A".toList,
                    HTMLURL := "https://github.com/x/y/discussions/1".toList,
                    CreatedAt := [],
                    Category := { Name := "General".toList, Description := [] } } }

/-- The mention map of the end-to-end example. -/
def sampleMentionMap : SlackMentionMapList := [("alice".toList, "U123".toList)]

/-- A mention map with two logins. -/
def twoMentionMap : SlackMentionMapList :=
  [("alice".toList, "U123".toList), ("bob".toList, "U456".toList)]

/-- Two logins one of which begins the other. -/
def prefixMentionMap : SlackMentionMapList :=
  [("al".toList, "U1".toList), ("alice".toList, "U2".toList)]

/-- A login with a bracket in it. -/
def bracketMentionMap : SlackMentionMapList := [("a<".toList, "S".toList)]

/-- A response with the given status and an empty body. -/
def sampleResponse (code : Nat) (status : String) : Response :=
  { StatusCode := code, Status := status.toList, Body := Except.ok [] }

/-- A world in which every input is set, the event file at `/event.json` decodes
to the sample event, GitHub answers the contents request with `fetchStatus` and
Slack answers with `postStatus`. -/
def sampleWorld (fetchStatus postStatus : Response) : World :=
  { getenv := fun name =>
      if name = "GITHUB_EVENT_PATH".toList then "/event.json".toList
      else if name = "GITHUB_REPOSITORY".toList then "x/y".toList
      else if name = "INPUT_SLACK_MENTION_MAP_PATH".toList then "map.json".toList
      else if name = "INPUT_GITHUB_TOKEN".toList then "ghp".toList
      else if name = "INPUT_SLACK_API_TOKEN".toList then "xoxb".toList
      else if name = "INPUT_SLACK_CHANNEL".toList then "C1".toList
      else [],
    files := fun name =>
      if name = "/event.json".toList then FileState.readable "{}".toList
      else if name = "/locked.json".toList then FileState.openFails "permission denied".toList
      else FileState.missing,
    unmarshalEvent := fun _ => Except.ok sampleEvent,
    newRequest := fun _ _ => none,
    clientDo := fun req =>
      if req.Method = "GET".toList then Except.ok fetchStatus else Except.ok postStatus,
    unmarshalContent := fun _ => Except.ok (some []),
    base64Decode := fun _ => Except.ok [],
    unmarshalMentionMap := fun _ => Except.ok sampleMentionMap,
    marshalSlackMessage := fun m => Except.ok (m.Channel ++ m.Text) }

/-- The sample world with the event path unset. -/
def sampleWorldNoEventPath : World :=
  { sampleWorld (sampleResponse 200 "200 OK") (sampleResponse 200 "200 OK") with
    getenv := fun _ => [] }

/-- The request reaches Slack and `resp` comes back: the payload is encoded, the
request is built and `client.Do` returns `resp` without error. -/
def sendReceives (w : World) (token channel message : GoString) (resp : Response) : Prop :=
  ∃ messageBytes,
    w.marshalSlackMessage { Channel := channel, Text := message } = Except.ok messageBytes ∧
    w.newRequest "POST".toList "https://slack.com/api/chat.postMessage".toList = none ∧
    w.clientDo (sendRequest token messageBytes) = Except.ok resp

/-- The contents request reaches GitHub and `resp` comes back. -/
def fetchReceives (w : World) (filePath : GoString) (resp : Response) : Prop :=
  w.newRequest "GET".toList (fetchRequest w filePath).URL = none ∧
  w.clientDo (fetchRequest w filePath) = Except.ok resp

/-- The run gets as far as fetching the mention map at `filePath`: the event
path is set, the event loads, and the map path is set to `filePath`. -/
def reachesFetch (w : World) (filePath : GoString) : Prop :=
  w.getenv "GITHUB_EVENT_PATH".toList ≠ [] ∧
  (getEvent w (w.getenv "GITHUB_EVENT_PATH".toList)).2 = none ∧
  getGithubInput w "SLACK_MENTION_MAP_PATH".toList = filePath ∧ filePath ≠ []

end DiscussionsNotify

namespace DiscussionsNotify

/-! ## Facts about the replacement scan -/

theorem replaceScan_nil (old new : GoString) (k : Nat) : replaceScan old new k [] = [] := by
  cases k <;> rfl

theorem replaceScan_skip (old new : GoString) (k : Nat) (s : GoString) :
    replaceScan old new k s = replaceScan old new 0 (s.drop k) := by
  induction s generalizing k with
  | nil => simp [replaceScan_nil]
  | cons c cs ih =>
    cases k with
    | zero => simp
    | succ k => simp [replaceScan, ih k]

/-- Where `old` starts, the scan writes `new` and goes on behind the occurrence. -/
theorem replaceScan_match (old new t : GoString) (hold : old ≠ []) :
    replaceScan old new 0 (old ++ t) = new ++ replaceScan old new 0 t := by
  cases old with
  | nil => exact absurd rfl hold
  | cons o os =>
    have hpre : (o :: os).isPrefixOf (o :: (os ++ t)) = true := by
      rw [List.isPrefixOf_iff_prefix]
      exact List.prefix_append (o :: os) t
    rw [List.cons_append, replaceScan, if_pos hpre, replaceScan_skip]
    simp

/-- Where `old` does not start, the scan copies one character. -/
theorem replaceScan_copy (old new : GoString) (c : Char) (cs : GoString)
    (h : ¬ old <+: c :: cs) :
    replaceScan old new 0 (c :: cs) = c :: replaceScan old new 0 cs := by
  have hpre : ¬ old.isPrefixOf (c :: cs) = true := by
    rw [List.isPrefixOf_iff_prefix]
    exact h
  rw [replaceScan, if_neg hpre]

/-- A text without any occurrence of `old` is left as it is. -/
theorem replaceScan_of_absent (old new : GoString) :
    ∀ s : GoString, ¬ old <:+: s → replaceScan old new 0 s = s := by
  intro s
  induction s with
  | nil => intro _; rfl
  | cons c cs ih =>
    intro h
    have h1 : ¬ old <+: c :: cs := fun hp => h hp.isInfix
    have h2 : ¬ old <:+: cs := fun hi => h (List.infix_cons_iff.mpr (Or.inr hi))
    rw [replaceScan_copy old new c cs h1, ih h2]

/-- Replacing `old` by itself gives the text back: the early return of
`strings.Replace` for `old == new` agrees with the scan. -/
theorem replaceScan_same (old : GoString) (hold : old ≠ []) :
    ∀ (n : Nat) (s : GoString), s.length ≤ n → replaceScan old old 0 s = s := by
  intro n
  induction n with
  | zero =>
    intro s hs
    have : s = [] := List.length_eq_zero.mp (Nat.le_zero.mp hs)
    subst this
    rfl
  | succ n ih =>
    intro s hs
    cases s with
    | nil => rfl
    | cons c cs =>
      by_cases hm : old <+: c :: cs
      · obtain ⟨t, ht⟩ := hm
        have hlen : t.length ≤ n := by
          have h1 : (old ++ t).length = (c :: cs).length := by rw [ht]
          have h2 : 0 < old.length := List.length_pos.mpr hold
          simp only [List.length_append, List.length_cons] at h1 hs
          omega
        rw [← ht, replaceScan_match old old t hold, ih t hlen]
      · have hlen : cs.length ≤ n := by
          simp only [List.length_cons] at hs
          omega
        rw [replaceScan_copy old old c cs hm, ih cs hlen]

/-- A pattern that avoids the first character of `new` and starts the scanned
text already started the text before the scan. -/
theorem prefix_of_prefix_replaceScan (old new : GoString) (x : Char) (rest : GoString)
    (hnew : new = x :: rest) (hold : old ≠ []) :
    ∀ (s p : GoString), x ∉ p → p <+: replaceScan old new 0 s → p <+: s := by
  intro s
  induction s with
  | nil =>
    intro p _ hp
    simpa [replaceScan_nil] using hp
  | cons c cs ih =>
    intro p hx hp
    by_cases hm : old <+: c :: cs
    · obtain ⟨t, ht⟩ := hm
      rw [← ht, replaceScan_match old new t hold, hnew, List.cons_append] at hp
      rcases List.prefix_cons_iff.mp hp with h | ⟨t2, h, _⟩
      · subst h
        exact List.nil_prefix
      · subst h
        exact absurd (List.mem_cons_self x t2) hx
    · rw [replaceScan_copy old new c cs hm] at hp
      rcases List.prefix_cons_iff.mp hp with h | ⟨t2, h, ht2⟩
      · subst h
        exact List.nil_prefix
      · subst h
        have hx2 : x ∉ t2 := fun hmem => hx (List.mem_cons_of_mem c hmem)
        exact List.cons_prefix_cons.mpr ⟨rfl, ih t2 hx2 ht2⟩

/-- An occurrence of `p` in `a ++ [y] ++ r`, where `p` avoids `y`, lies within
`a ++ [y]` or within `r`. -/
theorem infix_append_of_not_mem_last (p a r : GoString) (y : Char) (hy : y ∉ p)
    (h : p <:+: (a ++ [y]) ++ r) : p <:+: a ++ [y] ∨ p <:+: r := by
  obtain ⟨u, v, huv⟩ := h
  rw [List.append_assoc] at huv
  rcases List.append_eq_append_iff.mp huv with ⟨m, hm1, hm2⟩ | ⟨m, hm1, hm2⟩
  · -- a ++ [y] = u ++ m, p ++ v = m ++ r
    rcases List.append_eq_append_iff.mp hm2 with ⟨n, hn1, hn2⟩ | ⟨n, hn1, hn2⟩
    · -- m = p ++ n
      left
      exact ⟨u, n, by rw [hm1, hn1, List.append_assoc]⟩
    · -- p = m ++ n, r = n ++ v
      rcases List.eq_nil_or_concat m with hmn | ⟨m0, z, hmz⟩
      · right
        subst hmn
        simp only [List.nil_append] at hn1
        subst hn1
        exact ⟨[], v, by simpa using hn2.symm⟩
      · exfalso
        rw [List.concat_eq_append] at hmz
        subst hmz
        rw [← List.append_assoc] at hm1
        have hz : [y] = [z] := List.append_inj_right' hm1 rfl
        have hzy : z = y := by simpa using hz.symm
        subst hzy
        exact hy (by rw [hn1]; simp)
  · -- u = a ++ [y] ++ m, r = m ++ p ++ v
    right
    exact ⟨m, v, by rw [hm2, List.append_assoc]⟩

/-- The scan creates no occurrence of a pattern `p` that avoids the first and the
last character of `new` and does not occur in `new`. -/
theorem infix_of_infix_replaceScan (old new : GoString) (x y : Char) (mid : GoString)
    (hnew : new = x :: (mid ++ [y])) (hold : old ≠ []) (p : GoString)
    (hx : x ∉ p) (hy : y ∉ p) (hp : ¬ p <:+: new) :
    ∀ (n : Nat) (s : GoString), s.length ≤ n → p <:+: replaceScan old new 0 s → p <:+: s := by
  intro n
  induction n with
  | zero =>
    intro s hs h
    have : s = [] := List.length_eq_zero.mp (Nat.le_zero.mp hs)
    subst this
    simpa [replaceScan_nil] using h
  | succ n ih =>
    intro s hs h
    cases s with
    | nil => simpa [replaceScan_nil] using h
    | cons c cs =>
      by_cases hm : old <+: c :: cs
      · obtain ⟨t, ht⟩ := hm
        have hlen : t.length ≤ n := by
          have h1 : (old ++ t).length = (c :: cs).length := by rw [ht]
          have h2 : 0 < old.length := List.length_pos.mpr hold
          simp only [List.length_append, List.length_cons] at h1 hs
          omega
        rw [← ht, replaceScan_match old new t hold] at h
        have hnew2 : new = (x :: mid) ++ [y] := by rw [hnew, List.cons_append]
        have h0 : p <:+: ((x :: mid) ++ [y]) ++ replaceScan old new 0 t := by
          rw [← hnew2]
          exact h
        rcases infix_append_of_not_mem_last p (x :: mid) _ y hy h0 with h1 | h1
        · rw [← hnew2] at h1
          exact absurd h1 hp
        · have h2 := ih t hlen h1
          rw [← ht]
          exact h2.trans (List.suffix_append old t).isInfix
      · rw [replaceScan_copy old new c cs hm] at h
        rcases List.infix_cons_iff.mp h with h1 | h1
        · rw [← replaceScan_copy old new c cs hm] at h1
          exact (prefix_of_prefix_replaceScan old new x (mid ++ [y]) hnew hold (c :: cs) p hx
            h1).isInfix
        · have hlen : cs.length ≤ n := by
            simp only [List.length_cons] at hs
            omega
          exact List.infix_cons_iff.mpr (Or.inr (ih cs hlen h1))

/-- After the scan no occurrence of `old` is left, when `old` avoids the first
and the last character of `new` and does not occur in `new`. -/
theorem not_infix_replaceScan_self (old new : GoString) (x y : Char) (mid : GoString)
    (hnew : new = x :: (mid ++ [y])) (hold : old ≠ [])
    (hx : x ∉ old) (hy : y ∉ old) (hp : ¬ old <:+: new) :
    ∀ (n : Nat) (s : GoString), s.length ≤ n → ¬ old <:+: replaceScan old new 0 s := by
  intro n
  induction n with
  | zero =>
    intro s hs h
    have : s = [] := List.length_eq_zero.mp (Nat.le_zero.mp hs)
    subst this
    rw [replaceScan_nil] at h
    exact hold (List.eq_nil_of_infix_nil h)
  | succ n ih =>
    intro s hs h
    cases s with
    | nil =>
      rw [replaceScan_nil] at h
      exact hold (List.eq_nil_of_infix_nil h)
    | cons c cs =>
      by_cases hm : old <+: c :: cs
      · obtain ⟨t, ht⟩ := hm
        have hlen : t.length ≤ n := by
          have h1 : (old ++ t).length = (c :: cs).length := by rw [ht]
          have h2 : 0 < old.length := List.length_pos.mpr hold
          simp only [List.length_append, List.length_cons] at h1 hs
          omega
        rw [← ht, replaceScan_match old new t hold] at h
        have hnew2 : new = (x :: mid) ++ [y] := by rw [hnew, List.cons_append]
        have h0 : old <:+: ((x :: mid) ++ [y]) ++ replaceScan old new 0 t := by
          rw [← hnew2]
          exact h
        rcases infix_append_of_not_mem_last old (x :: mid) _ y hy h0 with h1 | h1
        · rw [← hnew2] at h1
          exact hp h1
        · exact ih t hlen h1
      · have hm2 := hm
        rw [replaceScan_copy old new c cs hm] at h
        rcases List.infix_cons_iff.mp h with h1 | h1
        · rw [← replaceScan_copy old new c cs hm] at h1
          exact hm2 (prefix_of_prefix_replaceScan old new x (mid ++ [y]) hnew hold (c :: cs) old
            hx h1)
        · have hlen : cs.length ≤ n := by
            simp only [List.length_cons] at hs
            omega
          exact ih cs hlen h1


/-! ## Facts about mention rewriting -/

theorem mentionPattern_ne_nil (login : GoString) : mentionPattern login ≠ [] := by
  simp [mentionPattern]

theorem mentionToken_eq (id : GoString) : mentionToken id = '<' :: (('@' :: id) ++ ['>']) := rfl

theorem lt_not_mem_mentionPattern (login : GoString) (h : '<' ∉ login) :
    '<' ∉ mentionPattern login := by
  simp only [mentionPattern, List.mem_cons, not_or]
  exact ⟨by decide, h⟩

theorem gt_not_mem_mentionPattern (login : GoString) (h : '>' ∉ login) :
    '>' ∉ mentionPattern login := by
  simp only [mentionPattern, List.mem_cons, not_or]
  exact ⟨by decide, h⟩

/-- The rewriting step of `convertToSlackMention` is the scan: the search text
`@login` is never empty. -/
theorem replaceAll_mention (text login id : GoString) :
    replaceAll text (mentionPattern login) (mentionToken id) =
      replaceScan (mentionPattern login) (mentionToken id) 0 text := by
  rw [replaceAll, if_neg (mentionPattern_ne_nil login)]

theorem convertToSlackMention_concat (text : GoString) (m : SlackMentionMapList)
    (a : GoString × GoString) :
    convertToSlackMention text (m ++ [a]) =
      replaceScan (mentionPattern a.1) (mentionToken a.2) 0 (convertToSlackMention text m) := by
  simp only [convertToSlackMention, List.foldl_append, List.foldl_cons, List.foldl_nil]
  exact replaceAll_mention _ _ _

/-- One rewriting step for `(login2, id)` creates no `@login` in a text that had
none, when `login` avoids the brackets and `@login` is no part of `<@id>`. -/
theorem step_keeps_mention_absent (text login login2 id : GoString)
    (hplain : avoidsBrackets login)
    (htok : ¬ containsSubstr (mentionToken id) (mentionPattern login))
    (habs : ¬ containsSubstr text (mentionPattern login)) :
    ¬ containsSubstr (replaceScan (mentionPattern login2) (mentionToken id) 0 text)
        (mentionPattern login) := by
  intro h
  exact habs (infix_of_infix_replaceScan (mentionPattern login2) (mentionToken id) '<' '>'
    ('@' :: id) (mentionToken_eq id) (mentionPattern_ne_nil login2) (mentionPattern login)
    (lt_not_mem_mentionPattern login hplain.1) (gt_not_mem_mentionPattern login hplain.2)
    htok text.length text le_rfl h)

/-- One rewriting step for `(login, id)` leaves no `@login`, when `login` avoids
the brackets and `@login` is no part of `<@id>`. -/
theorem step_removes_mention (text login id : GoString)
    (hplain : avoidsBrackets login)
    (htok : ¬ containsSubstr (mentionToken id) (mentionPattern login)) :
    ¬ containsSubstr (replaceScan (mentionPattern login) (mentionToken id) 0 text)
        (mentionPattern login) :=
  not_infix_replaceScan_self (mentionPattern login) (mentionToken id) '<' '>'
    ('@' :: id) (mentionToken_eq id) (mentionPattern_ne_nil login)
    (lt_not_mem_mentionPattern login hplain.1) (gt_not_mem_mentionPattern login hplain.2)
    htok text.length text le_rfl

/-- After `convertToSlackMention` no `@login` of the map is left, when the logins
avoid the brackets and no token contains an `@login`. -/
theorem convert_leaves_no_mention (text : GoString) (m : SlackMentionMapList)
    (hplain : ∀ p ∈ m, avoidsBrackets p.1) (htok : tokensAvoidMentions m) :
    ∀ p ∈ m, ¬ containsSubstr (convertToSlackMention text m) (mentionPattern p.1) := by
  induction m using List.reverseRecOn with
  | nil =>
    intro p hp
    simp at hp
  | append_singleton l a ih =>
    have hplain2 : ∀ p ∈ l, avoidsBrackets p.1 :=
      fun p hp => hplain p (List.mem_append_left _ hp)
    have htok2 : tokensAvoidMentions l :=
      fun p hp q hq => htok p (List.mem_append_left _ hp) q (List.mem_append_left _ hq)
    have ha : a ∈ l ++ [a] := List.mem_append_right _ (List.mem_singleton_self a)
    intro p hp
    rw [convertToSlackMention_concat]
    rcases List.mem_append.mp hp with hpl | hpa
    · exact step_keeps_mention_absent _ p.1 a.1 a.2 (hplain p hp) (htok p hp a ha)
        (ih hplain2 htok2 p hpl)
    · have hpa2 : p = a := List.mem_singleton.mp hpa
      subst hpa2
      exact step_removes_mention _ p.1 p.2 (hplain p hp) (htok p hp p hp)

/-- A text without any `@login` of the map is left as it is. -/
theorem convert_of_no_mention (m : SlackMentionMapList) :
    ∀ text : GoString, (∀ p ∈ m, ¬ containsSubstr text (mentionPattern p.1)) →
      convertToSlackMention text m = text := by
  induction m with
  | nil => intro text _; rfl
  | cons a l ih =>
    intro text h
    have h1 : replaceAll text (mentionPattern a.1) (mentionToken a.2) = text := by
      rw [replaceAll_mention]
      exact replaceScan_of_absent _ _ text (h a (List.mem_cons_self a l))
    have h2 : convertToSlackMention text (a :: l) =
        convertToSlackMention (replaceAll text (mentionPattern a.1) (mentionToken a.2)) l := rfl
    rw [h2, h1]
    exact ih text (fun p hp => h p (List.mem_cons_of_mem a hp))


/-! ## Two rewriting steps commute -/

/-- The scan copies a stretch of text in which no occurrence of `old` starts. -/
theorem replaceScan_append_of_no_start (old new t : GoString) :
    ∀ n : GoString, (∀ u w : GoString, n = u ++ w → w ≠ [] → ¬ old <+: w ++ t) →
      replaceScan old new 0 (n ++ t) = n ++ replaceScan old new 0 t := by
  intro n
  induction n with
  | nil => intro _; rfl
  | cons h n ih =>
    intro hstart
    have h0 : ¬ old <+: h :: (n ++ t) := hstart [] (h :: n) rfl (List.cons_ne_nil h n)
    have h1 : ∀ u w : GoString, n = u ++ w → w ≠ [] → ¬ old <+: w ++ t :=
      fun u w hu hw => hstart (h :: u) w (by rw [hu, List.cons_append]) hw
    rw [List.cons_append, replaceScan_copy old new h (n ++ t) h0, ih h1, List.cons_append]

/-- No `@login` starts inside a token `<@id>` that does not contain it, whatever
follows the token, when `login` has no `>`. -/
theorem no_start_in_token (login id t : GoString) (hgt : '>' ∉ login)
    (htok : ¬ mentionPattern login <:+: mentionToken id) :
    ∀ u w : GoString, mentionToken id = u ++ w → w ≠ [] →
      ¬ mentionPattern login <+: w ++ t := by
  intro u w huw hw hpre
  rcases List.prefix_or_prefix_of_prefix hpre (List.prefix_append w t) with h | h
  · apply htok
    rw [huw]
    exact h.isInfix.trans (List.suffix_append u w).isInfix
  · rcases List.eq_nil_or_concat w with hnil | ⟨w0, z, hz⟩
    · exact hw hnil
    · rw [List.concat_eq_append] at hz
      subst hz
      have h1 : ('<' :: '@' :: id) ++ ['>'] = (u ++ w0) ++ [z] := by
        rw [List.append_assoc, ← huw]
        rfl
      have h2 : ['>'] = [z] := List.append_inj_right' h1 rfl
      have h3 : z = '>' := by simpa using h2.symm
      subst h3
      have h4 : '>' ∈ mentionPattern login := h.subset (by simp)
      exact gt_not_mem_mentionPattern login hgt h4

/-- Inside `@login1` an `@login2` can start only at the first character, when
`login1` has no `@`. -/
theorem no_start_in_pattern (login1 login2 t : GoString) (hat : '@' ∉ login1)
    (hpre : ¬ mentionPattern login2 <+: mentionPattern login1 ++ t) :
    ∀ u w : GoString, mentionPattern login1 = u ++ w → w ≠ [] →
      ¬ mentionPattern login2 <+: w ++ t := by
  intro u w huw hw h
  cases u with
  | nil =>
    rw [List.nil_append] at huw
    rw [← huw] at h
    exact hpre h
  | cons c u =>
    cases w with
    | nil => exact hw rfl
    | cons d w =>
      have h1 : login1 = u ++ d :: w := by
        have := huw
        simp only [mentionPattern, List.cons_append, List.cons.injEq] at this
        exact this.2
      have h2 : '@' = d := by
        have := h
        simp only [mentionPattern, List.cons_append] at this
        exact (List.cons_prefix_cons.mp this).1
      apply hat
      rw [h1, h2]
      simp

/-- Two patterns that start the same text: one of the logins is a prefix of the
other. -/
theorem login_prefix_of_both_start (login1 login2 s : GoString)
    (h1 : mentionPattern login1 <+: s) (h2 : mentionPattern login2 <+: s) :
    login1 <+: login2 ∨ login2 <+: login1 := by
  rcases List.prefix_or_prefix_of_prefix h1 h2 with h | h
  · left
    exact (List.cons_prefix_cons.mp h).2
  · right
    exact (List.cons_prefix_cons.mp h).2

/-- Rewriting for `(login1, id1)` and then for `(login2, id2)` gives the same
text as the other order, for plain logins neither of which is a prefix of the
other and tokens that contain neither `@login`. -/
theorem replaceScan_mention_comm (login1 id1 login2 id2 : GoString)
    (hat1 : '@' ∉ login1) (hb1 : avoidsBrackets login1)
    (hat2 : '@' ∉ login2) (hb2 : avoidsBrackets login2)
    (hp12 : ¬ login1 <+: login2) (hp21 : ¬ login2 <+: login1)
    (ht12 : ¬ mentionPattern login1 <:+: mentionToken id2)
    (ht21 : ¬ mentionPattern login2 <:+: mentionToken id1) :
    ∀ (n : Nat) (s : GoString), s.length ≤ n →
      replaceScan (mentionPattern login2) (mentionToken id2) 0
          (replaceScan (mentionPattern login1) (mentionToken id1) 0 s) =
        replaceScan (mentionPattern login1) (mentionToken id1) 0
          (replaceScan (mentionPattern login2) (mentionToken id2) 0 s) := by
  intro n
  induction n with
  | zero =>
    intro s hs
    have : s = [] := List.length_eq_zero.mp (Nat.le_zero.mp hs)
    subst this
    simp [replaceScan_nil]
  | succ n ih =>
    intro s hs
    cases s with
    | nil => simp [replaceScan_nil]
    | cons c cs =>
      have hne1 := mentionPattern_ne_nil login1
      have hne2 := mentionPattern_ne_nil login2
      by_cases hm1 : mentionPattern login1 <+: c :: cs
      · have hm2 : ¬ mentionPattern login2 <+: c :: cs := fun hm2 =>
          (login_prefix_of_both_start login1 login2 _ hm1 hm2).elim hp12 hp21
        obtain ⟨t, ht⟩ := hm1
        have hlen : t.length ≤ n := by
          have h1 : (mentionPattern login1 ++ t).length = (c :: cs).length := by rw [ht]
          simp only [mentionPattern, List.length_append, List.length_cons] at h1 hs
          omega
        rw [← ht] at hm2 ⊢
        rw [replaceScan_match _ _ t hne1,
          replaceScan_append_of_no_start _ _ _ (mentionToken id1)
            (no_start_in_token login2 id1 _ hb2.2 ht21),
          replaceScan_append_of_no_start _ _ _ (mentionPattern login1)
            (no_start_in_pattern login1 login2 t hat1 hm2),
          replaceScan_match _ _ _ hne1, ih t hlen]
      · by_cases hm2 : mentionPattern login2 <+: c :: cs
        · obtain ⟨t, ht⟩ := hm2
          have hlen : t.length ≤ n := by
            have h1 : (mentionPattern login2 ++ t).length = (c :: cs).length := by rw [ht]
            simp only [mentionPattern, List.length_append, List.length_cons] at h1 hs
            omega
          rw [← ht] at hm1 ⊢
          rw [replaceScan_match _ _ t hne2,
            replaceScan_append_of_no_start _ _ _ (mentionToken id2)
              (no_start_in_token login1 id2 _ hb1.2 ht12),
            replaceScan_append_of_no_start _ _ _ (mentionPattern login2)
              (no_start_in_pattern login2 login1 t hat2 hm1),
            replaceScan_match _ _ _ hne2, ih t hlen]
        · have hA : ¬ mentionPattern login2 <+:
              replaceScan (mentionPattern login1) (mentionToken id1) 0 (c :: cs) := fun h =>
            hm2 (prefix_of_prefix_replaceScan _ _ '<' _ (mentionToken_eq id1) hne1 (c :: cs) _
              (lt_not_mem_mentionPattern login2 hb2.1) h)
          have hB : ¬ mentionPattern login1 <+:
              replaceScan (mentionPattern login2) (mentionToken id2) 0 (c :: cs) := fun h =>
            hm1 (prefix_of_prefix_replaceScan _ _ '<' _ (mentionToken_eq id2) hne2 (c :: cs) _
              (lt_not_mem_mentionPattern login1 hb1.1) h)
          have hlen : cs.length ≤ n := by
            simp only [List.length_cons] at hs
            omega
          rw [replaceScan_copy _ _ c cs hm1] at hA ⊢
          rw [replaceScan_copy _ _ c cs hm2] at hB ⊢
          rw [replaceScan_copy _ _ c _ hA, replaceScan_copy _ _ c _ hB, ih cs hlen]

/-- The steps of `convertToSlackMention` for two pairs of a well-formed map
commute. -/
theorem convert_step_comm (m : SlackMentionMapList)
    (hdistinct : distinctLogins m) (hplain : loginsPlain m)
    (hpfx : noLoginPrefixOfAnother m) (htoken : noLoginInAnotherToken m) :
    ∀ x ∈ m, ∀ y ∈ m, ∀ text : GoString,
      replaceAll (replaceAll text (mentionPattern x.1) (mentionToken x.2))
          (mentionPattern y.1) (mentionToken y.2) =
        replaceAll (replaceAll text (mentionPattern y.1) (mentionToken y.2))
          (mentionPattern x.1) (mentionToken x.2) := by
  intro x hx y hy text
  by_cases hxy : x.1 = y.1
  · have : x = y := List.inj_on_of_nodup_map hdistinct hx hy hxy
    subst this
    rfl
  · have hyx : y.1 ≠ x.1 := fun h => hxy h.symm
    have hsub : ∀ login token : GoString, ¬ login <:+: token →
        ¬ mentionPattern login <:+: token := fun login token h h2 =>
      h ((List.suffix_cons '@' login).isInfix.trans h2)
    simp only [replaceAll_mention]
    exact replaceScan_mention_comm x.1 x.2 y.1 y.2 (hplain x hx).1 (hplain x hx).2
      (hplain y hy).1 (hplain y hy).2 (hpfx x hx y hy hxy) (hpfx y hy x hx hyx)
      (hsub _ _ (htoken x hx y hy hxy)) (hsub _ _ (htoken y hy x hx hyx)) text.length text le_rfl

/-- The result of `convertToSlackMention` is the same for a well-formed map and
for any reordering of it. -/
theorem convert_perm (text : GoString) (m m2 : SlackMentionMapList)
    (hdistinct : distinctLogins m) (hplain : loginsPlain m)
    (hpfx : noLoginPrefixOfAnother m) (htoken : noLoginInAnotherToken m)
    (hperm : m2.Perm m) :
    convertToSlackMention text m2 = convertToSlackMention text m :=
  (List.Perm.foldl_eq' hperm.symm
    (convert_step_comm m hdistinct hplain hpfx htoken) text).symm


/-! ## Every mention is replaced by its token -/

/-- The scan of `u ++ w` is the scan of `u` followed by the scan of `w`, when
every occurrence of `old` that starts in `u` ends in `u`. -/
theorem replaceScan_append_of_no_crossing (old new w : GoString) (hold : old ≠ []) :
    ∀ (n : Nat) (u : GoString), u.length ≤ n →
      (∀ a b : GoString, u = a ++ b → b ≠ [] → old <+: b ++ w → old <+: b) →
      replaceScan old new 0 (u ++ w) = replaceScan old new 0 u ++ replaceScan old new 0 w := by
  intro n
  induction n with
  | zero =>
    intro u hu _
    have : u = [] := List.length_eq_zero.mp (Nat.le_zero.mp hu)
    subst this
    simp [replaceScan_nil]
  | succ n ih =>
    intro u hu hcross
    cases u with
    | nil => simp [replaceScan_nil]
    | cons c cs =>
      by_cases hm : old <+: (c :: cs) ++ w
      · obtain ⟨t, ht⟩ := hcross [] (c :: cs) rfl (List.cons_ne_nil c cs) hm
        have hlen : t.length ≤ n := by
          have h1 : (old ++ t).length = (c :: cs).length := by rw [ht]
          have h2 : 0 < old.length := List.length_pos.mpr hold
          simp only [List.length_append, List.length_cons] at h1 hu
          omega
        have hcross2 : ∀ a b : GoString, t = a ++ b → b ≠ [] → old <+: b ++ w → old <+: b :=
          fun a b hab hb h => hcross (old ++ a) b (by rw [← ht, hab, List.append_assoc]) hb h
        rw [← ht, List.append_assoc, replaceScan_match old new (t ++ w) hold,
          replaceScan_match old new t hold, ih t hlen hcross2, List.append_assoc]
      · have hm2 : ¬ old <+: c :: cs := fun h => hm (h.trans (List.prefix_append _ w))
        have hlen : cs.length ≤ n := by
          simp only [List.length_cons] at hu
          omega
        have hcross2 : ∀ a b : GoString, cs = a ++ b → b ≠ [] → old <+: b ++ w → old <+: b :=
          fun a b hab hb h => hcross (c :: a) b (by rw [hab, List.cons_append]) hb h
        rw [List.cons_append] at hm ⊢
        rw [replaceScan_copy old new c (cs ++ w) hm, replaceScan_copy old new c cs hm2,
          ih cs hlen hcross2, List.cons_append]

/-- An `@login` that starts in `b` does not run on into a text that begins with
a character `login` does not contain. -/
theorem no_crossing_into (login : GoString) (x : Char) (hx : x ∉ login) (rest : GoString) :
    ∀ b : GoString, b ≠ [] → mentionPattern login <+: b ++ x :: rest →
      mentionPattern login <+: b := by
  intro b hb h
  rcases List.prefix_or_prefix_of_prefix h (List.prefix_append b (x :: rest)) with h1 | h1
  · exact h1
  · obtain ⟨r, hr⟩ := h1
    obtain ⟨z, hz⟩ := h
    cases r with
    | nil =>
      rw [List.append_nil] at hr
      rw [hr]
    | cons r0 rs =>
      exfalso
      have h2 : b ++ (r0 :: rs ++ z) = b ++ x :: rest := by
        rw [← List.append_assoc, hr, hz]
      have h3 : r0 :: rs ++ z = x :: rest := List.append_cancel_left h2
      have h4 : r0 = x := by
        simp only [List.cons_append, List.cons.injEq] at h3
        exact h3.1
      subst h4
      cases b with
      | nil => exact hb rfl
      | cons b0 bs =>
        have h5 : login = bs ++ r0 :: rs := by
          simp only [mentionPattern, List.cons_append, List.cons.injEq] at hr
          exact hr.2.symm
        apply hx
        rw [h5]
        simp

/-- One rewriting step passes over a token `<@tokenId>` that does not contain
its `@login`, and treats the text before and after it separately. -/
theorem step_around_token (login id tokenId u v : GoString) (hb : avoidsBrackets login)
    (htok : ¬ mentionPattern login <:+: mentionToken tokenId) :
    replaceScan (mentionPattern login) (mentionToken id) 0 (u ++ (mentionToken tokenId ++ v)) =
      replaceScan (mentionPattern login) (mentionToken id) 0 u ++
        (mentionToken tokenId ++ replaceScan (mentionPattern login) (mentionToken id) 0 v) := by
  have hcross : ∀ a b : GoString, u = a ++ b → b ≠ [] →
      mentionPattern login <+: b ++ (mentionToken tokenId ++ v) → mentionPattern login <+: b :=
    fun _ b _ hne h => no_crossing_into login '<' hb.1 (('@' :: tokenId) ++ ['>'] ++ v) b hne h
  rw [replaceScan_append_of_no_crossing _ _ _ (mentionPattern_ne_nil login) u.length u le_rfl
      hcross,
    replaceScan_append_of_no_start _ _ v (mentionToken tokenId)
      (no_start_in_token login tokenId v hb.2 htok)]

/-- One rewriting step for `login` passes over `@other`, when neither login has
an `@` and neither is a prefix of the other. -/
theorem step_around_other_mention (login id other u v : GoString)
    (hat : '@' ∉ login) (hat2 : '@' ∉ other)
    (hp1 : ¬ login <+: other) (hp2 : ¬ other <+: login) :
    replaceScan (mentionPattern login) (mentionToken id) 0 (u ++ (mentionPattern other ++ v)) =
      replaceScan (mentionPattern login) (mentionToken id) 0 u ++
        (mentionPattern other ++ replaceScan (mentionPattern login) (mentionToken id) 0 v) := by
  have hcross : ∀ a b : GoString, u = a ++ b → b ≠ [] →
      mentionPattern login <+: b ++ (mentionPattern other ++ v) → mentionPattern login <+: b :=
    fun _ b _ hne h => no_crossing_into login '@' hat (other ++ v) b hne h
  have hstart : ¬ mentionPattern login <+: mentionPattern other ++ v := fun h =>
    (login_prefix_of_both_start login other _ h (List.prefix_append _ v)).elim hp1 hp2
  rw [replaceScan_append_of_no_crossing _ _ _ (mentionPattern_ne_nil login) u.length u le_rfl
      hcross,
    replaceScan_append_of_no_start _ _ v (mentionPattern other)
      (no_start_in_pattern other login v hat2 hstart)]

/-- One rewriting step for `login` replaces an `@login` by its token, and treats
the text before and after it separately. -/
theorem step_at_own_mention (login id u v : GoString) (hat : '@' ∉ login) :
    replaceScan (mentionPattern login) (mentionToken id) 0 (u ++ (mentionPattern login ++ v)) =
      replaceScan (mentionPattern login) (mentionToken id) 0 u ++
        (mentionToken id ++ replaceScan (mentionPattern login) (mentionToken id) 0 v) := by
  have hcross : ∀ a b : GoString, u = a ++ b → b ≠ [] →
      mentionPattern login <+: b ++ (mentionPattern login ++ v) → mentionPattern login <+: b :=
    fun _ b _ hne h => no_crossing_into login '@' hat (login ++ v) b hne h
  rw [replaceScan_append_of_no_crossing _ _ _ (mentionPattern_ne_nil login) u.length u le_rfl
      hcross,
    replaceScan_match _ _ v (mentionPattern_ne_nil login)]

theorem convertToSlackMention_cons (text : GoString) (a : GoString × GoString)
    (l : SlackMentionMapList) :
    convertToSlackMention text (a :: l) =
      convertToSlackMention (replaceScan (mentionPattern a.1) (mentionToken a.2) 0 text) l := by
  rw [← replaceAll_mention]
  rfl

theorem convertToSlackMention_append (text : GoString) (l1 l2 : SlackMentionMapList) :
    convertToSlackMention text (l1 ++ l2) =
      convertToSlackMention (convertToSlackMention text l1) l2 := by
  simp only [convertToSlackMention, List.foldl_append]

/-- The rewriter passes over a token that contains no `@login` of the map. -/
theorem convert_around_token (tokenId : GoString) (l : SlackMentionMapList) :
    (∀ q ∈ l, avoidsBrackets q.1 ∧ ¬ mentionPattern q.1 <:+: mentionToken tokenId) →
    ∀ u v : GoString,
      convertToSlackMention (u ++ (mentionToken tokenId ++ v)) l =
        convertToSlackMention u l ++ (mentionToken tokenId ++ convertToSlackMention v l) := by
  induction l with
  | nil => intro _ u v; rfl
  | cons a l ih =>
    intro h u v
    have ha := h a (List.mem_cons_self a l)
    rw [convertToSlackMention_cons, convertToSlackMention_cons, convertToSlackMention_cons,
      step_around_token a.1 a.2 tokenId u v ha.1 ha.2]
    exact ih (fun q hq => h q (List.mem_cons_of_mem a hq)) _ _

/-- The rewriter passes over `@other` when the map has no login that is a prefix
of `other` or has `other` as a prefix. -/
theorem convert_around_other_mention (other : GoString) (hat : '@' ∉ other)
    (l : SlackMentionMapList) :
    (∀ q ∈ l, '@' ∉ q.1 ∧ ¬ q.1 <+: other ∧ ¬ other <+: q.1) →
    ∀ u v : GoString,
      convertToSlackMention (u ++ (mentionPattern other ++ v)) l =
        convertToSlackMention u l ++ (mentionPattern other ++ convertToSlackMention v l) := by
  induction l with
  | nil => intro _ u v; rfl
  | cons a l ih =>
    intro h u v
    have ha := h a (List.mem_cons_self a l)
    rw [convertToSlackMention_cons, convertToSlackMention_cons, convertToSlackMention_cons,
      step_around_other_mention a.1 a.2 other u v ha.1 hat ha.2.1 ha.2.2]
    exact ih (fun q hq => h q (List.mem_cons_of_mem a hq)) _ _

/-- In a well-formed map every `@login` of the text is replaced by the token of
that login, and the text before and after it is rewritten by itself. -/
theorem convert_replaces_mention (m : SlackMentionMapList)
    (hdistinct : distinctLogins m) (hplain : loginsPlain m)
    (hpfx : noLoginPrefixOfAnother m) (htok : tokensAvoidMentions m) :
    ∀ p ∈ m, ∀ u v : GoString,
      convertToSlackMention (u ++ (mentionPattern p.1 ++ v)) m =
        convertToSlackMention u m ++ (mentionToken p.2 ++ convertToSlackMention v m) := by
  intro p hp u v
  obtain ⟨l1, l2, hm⟩ := List.append_of_mem hp
  have hnd : (l1.map Prod.fst ++ p.1 :: l2.map Prod.fst).Nodup := by
    have := hdistinct
    rw [distinctLogins, hm] at this
    simpa using this
  have hnot : p.1 ∉ l1.map Prod.fst ++ l2.map Prod.fst :=
    (List.nodup_cons.mp (List.nodup_middle.mp hnd)).1
  have hmem1 : ∀ q ∈ l1, q ∈ m := fun q hq => by
    rw [hm]
    exact List.mem_append_left _ hq
  have hmem2 : ∀ q ∈ l2, q ∈ m := fun q hq => by
    rw [hm]
    exact List.mem_append_right _ (List.mem_cons_of_mem p hq)
  have hne1 : ∀ q ∈ l1, q.1 ≠ p.1 := fun q hq h =>
    hnot (List.mem_append_left _ (h ▸ List.mem_map_of_mem Prod.fst hq))
  have hne2 : ∀ q ∈ l2, q.1 ≠ p.1 := fun q hq h =>
    hnot (List.mem_append_right _ (h ▸ List.mem_map_of_mem Prod.fst hq))
  have hbefore := convert_around_other_mention p.1 (hplain p hp).1 l1
    (fun q hq => ⟨(hplain q (hmem1 q hq)).1, hpfx q (hmem1 q hq) p hp (hne1 q hq),
      hpfx p hp q (hmem1 q hq) (fun h => hne1 q hq h.symm)⟩)
  have hafter := convert_around_token p.2 l2
    (fun q hq => ⟨(hplain q (hmem2 q hq)).2, htok q (hmem2 q hq) p hp⟩)
  rw [hm, convertToSlackMention_append, convertToSlackMention_append,
    convertToSlackMention_append, hbefore u v, convertToSlackMention_cons,
    convertToSlackMention_cons, convertToSlackMention_cons,
    step_at_own_mention p.1 p.2 _ _ (hplain p hp).1, hafter]


/-! ## Message Formatter -/

/-- Claim C1.  For every event, `createSlackMessage` is exactly the template
with the six fields inserted unchanged, and overwriting any of the other fields
of the event (action, comment URL and date, avatar URL, discussion date,
category description) leaves the message as it is. -/
theorem createSlackMessage_template (e : Event) :
    createSlackMessage e =
      "New comment by [".toList ++ e.Comment.User.Login ++ "](".toList ++ e.Comment.User.HTMLURL
        ++ ") on [".toList ++ e.Discussion.Title ++ "](".toList ++ e.Discussion.HTMLURL
        ++ ") in category ".toList ++ e.Discussion.Category.Name ++ ": ".toList
        ++ e.Comment.Body
    ∧ ∀ action commentURL commentDate avatar discussionDate description : GoString,
        createSlackMessage
          { Action := action,
            Comment := { Body := e.Comment.Body, HTMLURL := commentURL, CreatedAt := commentDate,
                         User := { Login := e.Comment.User.Login,
                                   HTMLURL := e.Comment.User.HTMLURL,
                                   AvatarURL := avatar } },
            Discussion := { Title := e.Discussion.Title, HTMLURL := e.Discussion.HTMLURL,
                            CreatedAt := discussionDate,
                            Category := { Name := e.Discussion.Category.Name,
                                          Description := description } } }
          = createSlackMessage e := by
  refine ⟨?_, ?_⟩
  · simp [createSlackMessage, sprintf]
  · intros
    simp [createSlackMessage]

/-- Claim C3.  The end-to-end example: the sample event and the mention map
`alice ↦ U123` give the chat text of the specification. -/
theorem sample_end_to_end :
    convertToSlackMention (createSlackMessage sampleEvent) sampleMentionMap =
      "New comment by [bob](https://github.com/bob) on [Q&A](https://github.com/x/y/discussions/1) in category General: Thanks <@U123>".toList := by
  decide

/-! ## Event Loader -/

/-- Claim C4.  When the read fails with a not-exist error `getEvent` returns the
zero event and no error; when it fails with any other error `getEvent` returns
the zero event and an error (which wraps the text of the read error). -/
theorem getEvent_read_failure (w : World) (eventPath : GoString) (err : OsError)
    (hread : (osReadFile w.files eventPath).err = some err) :
    (err.isNotExist = true → getEvent w eventPath = (Event.zero, none)) ∧
    (err.isNotExist = false →
      getEvent w eventPath =
        (Event.zero, some ("could not read event file: ".toList ++ err.text))) := by
  have hdata : err.isNotExist = true → (osReadFile w.files eventPath).data = none := by
    intro hne
    unfold osReadFile at hread ⊢
    by_cases hp : eventPath = []
    · simp [hp]
    · simp only [hp, if_false] at hread ⊢
      cases hf : w.files eventPath <;> simp_all
      subst hread
      simp at hne
  refine ⟨fun hne => ?_, fun hne => ?_⟩
  · simp [getEvent, hread, hne, hdata hne, Option.filter]
  · simp [getEvent, hread, hne, Option.filter, sprintf]

/-- Witness for `getEvent_read_failure`: in the sample world `/nope.json` does
not exist and `/locked.json` cannot be opened. -/
theorem getEvent_read_failure_witness :
    getEvent (sampleWorld (sampleResponse 200 "200 OK") (sampleResponse 200 "200 OK"))
        "/nope.json".toList = (Event.zero, none) ∧
    getEvent (sampleWorld (sampleResponse 200 "200 OK") (sampleResponse 200 "200 OK"))
        "/locked.json".toList =
      (Event.zero, some "could not read event file: permission denied".toList) :=
  ⟨(getEvent_read_failure _ "/nope.json".toList
      { isNotExist := true, text := "open /nope.json: no such file or directory".toList }
      (by decide)).1 rfl,
   (getEvent_read_failure _ "/locked.json".toList
      { isNotExist := false, text := "permission denied".toList } (by decide)).2 rfl⟩

/-- Claim C7, as stated, fails: `getEvent` called with the empty path returns
the zero event and no error. -/
theorem getEvent_empty_path_no_error :
    getEvent sampleWorldNoEventPath [] = (Event.zero, none) := by
  decide

/-- Claim C7, amended.  The empty event path is rejected by `main`, not by
`getEvent`: when `GITHUB_EVENT_PATH` is empty the run prints
`GITHUB_EVENT_PATH not found` and exits with code 1 with no entry into
`getEvent` in its trace, whereas every run with a non-empty path starts by
entering `getEvent` with that path; and `getEvent` on the empty path returns the
zero event and no error. -/
theorem main_empty_event_path (w : World) :
    (w.getenv "GITHUB_EVENT_PATH".toList = [] →
      main w = { trace := [Step.println "GITHUB_EVENT_PATH not found".toList], exitCode := 1 } ∧
      ∀ step ∈ (main w).trace, step.isGetEvent = false) ∧
    (w.getenv "GITHUB_EVENT_PATH".toList ≠ [] →
      (main w).trace.head? = some (Step.getEvent (w.getenv "GITHUB_EVENT_PATH".toList))) ∧
    getEvent w [] = (Event.zero, none) := by
  refine ⟨fun hpath => ?_, fun hpath => ?_, ?_⟩
  · have hmain : main w =
        { trace := [Step.println "GITHUB_EVENT_PATH not found".toList], exitCode := 1 } := by
      simp only [main, hpath, if_true]
    refine ⟨hmain, ?_⟩
    rw [hmain]
    intro step hstep
    rw [List.mem_singleton.mp hstep]
    rfl
  · simp only [main, hpath, if_false]
    repeat' split
    all_goals rfl
  · simp [getEvent, osReadFile, Option.filter]

/-- Witness for `main_empty_event_path`: the sample world with no variable set
never enters `getEvent`, the sample world with the path set enters it first. -/
theorem main_empty_event_path_witness :
    (main sampleWorldNoEventPath =
        { trace := [Step.println "GITHUB_EVENT_PATH not found".toList], exitCode := 1 } ∧
      ∀ step ∈ (main sampleWorldNoEventPath).trace, step.isGetEvent = false) ∧
    (main (sampleWorld (sampleResponse 200 "200 OK") (sampleResponse 200 "200 OK"))).trace.head?
      = some (Step.getEvent "/event.json".toList) :=
  ⟨(main_empty_event_path sampleWorldNoEventPath).1 rfl,
   (main_empty_event_path
      (sampleWorld (sampleResponse 200 "200 OK") (sampleResponse 200 "200 OK"))).2.1
      (by decide)⟩

/-! ## Mention Map Fetcher and Notifier -/

/-- Claim C5.  In every run that gets as far as the mention-map fetch and
receives a response whose status code is not 200, `fetchGitHubFileContent` fails
with an error that ends in the decimal status code, `readSlackMentionMap` fails
with that error wrapped, the run consists of the entry into `getEvent`, the one
GET and one printed line, exits with code 1, and contains neither a call of
`SendMessage` nor a POST. -/
theorem fetch_bad_status_stops_run (w : World) (filePath : GoString) (resp : Response)
    (hreach : reachesFetch w filePath) (hrecv : fetchReceives w filePath resp)
    (hstatus : resp.StatusCode ≠ StatusOK) :
    (fetchGitHubFileContent w filePath).1 =
      Except.error ("error fetching file: status code ".toList
        ++ (Nat.repr resp.StatusCode).toList) ∧
    (readSlackMentionMap w filePath).1 =
      Except.error ("error fetching file content: error fetching file: status code ".toList
        ++ (Nat.repr resp.StatusCode).toList) ∧
    (main w).trace =
      [Step.getEvent (w.getenv "GITHUB_EVENT_PATH".toList),
       Step.httpDo (fetchRequest w filePath),
       Step.println ("error fetching file content: error fetching file: status code ".toList
        ++ (Nat.repr resp.StatusCode).toList)] ∧
    (main w).exitCode = 1 ∧
    ∀ step ∈ (main w).trace, step.isChatStep = false := by
  obtain ⟨hnew, hdo⟩ := hrecv
  obtain ⟨hpath, hevent, hmap, hne⟩ := hreach
  have hnew2 : w.newRequest (fetchRequest w filePath).Method (fetchRequest w filePath).URL = none := hnew
  have hfetch : fetchGitHubFileContent w filePath =
      (Except.error ("error fetching file: status code ".toList
        ++ (Nat.repr resp.StatusCode).toList), [Step.httpDo (fetchRequest w filePath)]) := by
    simp [fetchGitHubFileContent, hnew2, hdo, hstatus, sprintf]
  have hread : readSlackMentionMap w filePath =
      (Except.error ("error fetching file content: error fetching file: status code ".toList
        ++ (Nat.repr resp.StatusCode).toList), [Step.httpDo (fetchRequest w filePath)]) := by
    simp [readSlackMentionMap, hfetch, sprintf]
  have hmain : main w =
      { trace := [Step.getEvent (w.getenv "GITHUB_EVENT_PATH".toList),
          Step.httpDo (fetchRequest w filePath),
          Step.println ("error fetching file content: error fetching file: status code ".toList
            ++ (Nat.repr resp.StatusCode).toList)],
        exitCode := 1 } := by
    cases hget : getEvent w (w.getenv "GITHUB_EVENT_PATH".toList) with
    | mk event err =>
      rw [hget] at hevent
      simp only at hevent
      subst hevent
      simp only [main, hpath, if_false, hget, hmap, hne, hread]
      rfl
  refine ⟨by rw [hfetch], by rw [hread], by rw [hmain], by rw [hmain], ?_⟩
  rw [hmain]
  intro step hstep
  simp only [List.mem_cons, List.mem_singleton, List.not_mem_nil, or_false] at hstep
  rcases hstep with h | h | h
  · subst h
    rfl
  · subst h
    simp [Step.isChatStep, fetchRequest]
  · subst h
    rfl

/-- Witness for `fetch_bad_status_stops_run`: the sample world in which GitHub
answers `404 Not Found`. -/
theorem fetch_bad_status_stops_run_witness :
    (main (sampleWorld (sampleResponse 404 "404 Not Found") (sampleResponse 200 "200 OK"))).exitCode
      = 1 ∧
    ∀ step ∈ (main (sampleWorld (sampleResponse 404 "404 Not Found")
        (sampleResponse 200 "200 OK"))).trace, step.isChatStep = false :=
  (fetch_bad_status_stops_run
    (sampleWorld (sampleResponse 404 "404 Not Found") (sampleResponse 200 "200 OK"))
    "map.json".toList (sampleResponse 404 "404 Not Found")
    ⟨by decide, by decide, by decide, by decide⟩ ⟨rfl, rfl⟩ (by decide)).2.2.2

/-- Claim C6, as stated, fails.  A response `204 No Content` has a success
status, yet `SendMessage` returns an error for it; and two responses with the
same status code 404 but different status texts give different errors. -/
theorem SendMessage_no_content_is_error :
    (SendMessage (sampleWorld (sampleResponse 200 "200 OK") (sampleResponse 204 "204 No Content"))
      "xoxb".toList "C1".toList "hello".toList).1
      = some "error status not OK: 204 No Content".toList ∧
    (SendMessage (sampleWorld (sampleResponse 200 "200 OK") (sampleResponse 404 "404 Not Found"))
      "xoxb".toList "C1".toList "hello".toList).1
      ≠ (SendMessage (sampleWorld (sampleResponse 200 "200 OK") (sampleResponse 404 "404 Gone"))
      "xoxb".toList "C1".toList "hello".toList).1 := by
  decide

/-- Claim C6, amended.  Once the request has been sent and a response received,
`SendMessage` returns nil exactly when the status code is 200 (`http.StatusOK`)
and otherwise, other success codes included, the error whose text is
`error status not OK: ` followed by the status text of the response; so whether
it returns nil depends on the status code alone, and any other call that
receives a response with the same status code and status text, whatever its
body, returns the same. -/
theorem SendMessage_status_only (w : World) (token channel message : GoString) (resp : Response)
    (hsent : sendReceives w token channel message resp) :
    (SendMessage w token channel message).1 =
      (if resp.StatusCode = StatusOK then none
       else some ("error status not OK: ".toList ++ resp.Status)) ∧
    ((SendMessage w token channel message).1 = none ↔ resp.StatusCode = 200) ∧
    (∀ (w2 : World) (token2 channel2 message2 : GoString) (resp2 : Response),
      sendReceives w2 token2 channel2 message2 resp2 →
      resp2.StatusCode = resp.StatusCode →
      ((SendMessage w2 token2 channel2 message2).1 = none ↔
        (SendMessage w token channel message).1 = none)) ∧
    ∀ (w2 : World) (token2 channel2 message2 : GoString) (resp2 : Response),
      sendReceives w2 token2 channel2 message2 resp2 →
      resp2.StatusCode = resp.StatusCode → resp2.Status = resp.Status →
      (SendMessage w2 token2 channel2 message2).1 = (SendMessage w token channel message).1 := by
  have key : ∀ (w : World) (token channel message : GoString) (resp : Response),
      sendReceives w token channel message resp →
      (SendMessage w token channel message).1 =
        (if resp.StatusCode = StatusOK then none
         else some ("error status not OK: ".toList ++ resp.Status)) := by
    intro w token channel message resp h
    obtain ⟨messageBytes, hmarshal, hnew, hdo⟩ := h
    have hnew2 : w.newRequest (sendRequest token messageBytes).Method
        (sendRequest token messageBytes).URL = none := hnew
    by_cases hcode : resp.StatusCode = StatusOK
    · simp [SendMessage, hmarshal, hnew2, hdo, hcode]
    · simp [SendMessage, hmarshal, hnew2, hdo, hcode, sprintf]
  have nil_iff : ∀ (w : World) (token channel message : GoString) (resp : Response),
      sendReceives w token channel message resp →
      ((SendMessage w token channel message).1 = none ↔ resp.StatusCode = 200) := by
    intro w token channel message resp h
    rw [key w token channel message resp h]
    by_cases hcode : resp.StatusCode = StatusOK
    · simp only [hcode, if_true, true_iff]
      rfl
    · simp only [hcode, if_false]
      constructor
      · intro h2
        exact absurd h2 (by simp)
      · intro h2
        exact absurd h2 hcode
  refine ⟨key w token channel message resp hsent, nil_iff w token channel message resp hsent,
    ?_, ?_⟩
  · intro w2 token2 channel2 message2 resp2 hsent2 hcode
    rw [nil_iff w token channel message resp hsent,
      nil_iff w2 token2 channel2 message2 resp2 hsent2, hcode]
  · intro w2 token2 channel2 message2 resp2 hsent2 hcode hstatus
    rw [key w token channel message resp hsent, key w2 token2 channel2 message2 resp2 hsent2,
      hcode, hstatus]

/-- Witness for `SendMessage_status_only`: Slack answers `200 OK` with the body
`{"ok":false}` and `SendMessage` still returns nil. -/
theorem SendMessage_status_only_witness :
    (SendMessage
      (sampleWorld (sampleResponse 200 "200 OK")
        { StatusCode := 200, Status := "200 OK".toList,
          Body := Except.ok "\x7b\"ok\":false\x7d".toList })
      "xoxb".toList "C1".toList "hello".toList).1 = none :=
  (SendMessage_status_only
    (sampleWorld (sampleResponse 200 "200 OK")
      { StatusCode := 200, Status := "200 OK".toList,
        Body := Except.ok "\x7b\"ok\":false\x7d".toList })
    "xoxb".toList "C1".toList "hello".toList
    { StatusCode := 200, Status := "200 OK".toList,
      Body := Except.ok "\x7b\"ok\":false\x7d".toList }
    ⟨_, rfl, rfl, rfl⟩).1

/-! ## Mention Rewriter -/

/-- Claim C10.  Rewriting with the empty mention map (Go's nil map and empty
map alike) returns the text unchanged. -/
theorem convertToSlackMention_empty (text : GoString) :
    convertToSlackMention text [] = text := by
  simp [convertToSlackMention]

/-- Claim C2, as stated, fails.  With the map `U1 ↦ U123` the text `@U1` becomes
`<@U123>`, which still contains `@U1`.  With the map `a< ↦ S`, whose token does
not contain `@a<`, the text `@a@a<` becomes `@a<@S>`, which contains `@a<`.  And
with the logins `al` and `alice`, visited in this order, `hi @alice` becomes
`hi <@U1>ice`: the mention of `alice` is not replaced by the token of `alice`. -/
theorem mention_left_after_rewrite :
    containsSubstr (convertToSlackMention "@U1".toList [("U1".toList, "U123".toList)])
      (mentionPattern "U1".toList) ∧
    (tokensAvoidMentions bracketMentionMap ∧
      containsSubstr (convertToSlackMention "@a@a<".toList bracketMentionMap)
        (mentionPattern "a<".toList)) ∧
    (tokensAvoidMentions prefixMentionMap ∧ loginsPlain prefixMentionMap ∧
      convertToSlackMention "hi @alice".toList prefixMentionMap = "hi <@U1>ice".toList) := by
  decide

/-- Claim C2, amended.  For every mention map with distinct logins in which no
login contains `@`, `<` or `>`, no login is a prefix of another login, and no
token `<@slackID>` contains an `@login` of the map: wherever `@login` occurs for
a login of the map, the rewriter puts the token mapped to that login in its
place and rewrites the text before and after it by itself; the rewritten text
contains no `@login` for any login of the map; and a text that contains no
`@login` of the map is returned unchanged. -/
theorem convertToSlackMention_replaces_mentions (text : GoString) (m : SlackMentionMapList)
    (hdistinct : distinctLogins m) (hplain : loginsPlain m)
    (hpfx : noLoginPrefixOfAnother m) (htok : tokensAvoidMentions m) :
    (∀ p ∈ m, ∀ u v : GoString,
      convertToSlackMention (u ++ (mentionPattern p.1 ++ v)) m =
        convertToSlackMention u m ++ (mentionToken p.2 ++ convertToSlackMention v m)) ∧
    (∀ p ∈ m, ¬ containsSubstr (convertToSlackMention text m) (mentionPattern p.1)) ∧
    ((∀ p ∈ m, ¬ containsSubstr text (mentionPattern p.1)) →
      convertToSlackMention text m = text) := by
  refine ⟨?_, ?_, ?_⟩
  · exact convert_replaces_mention m hdistinct hplain hpfx htok
  · exact convert_leaves_no_mention text m (fun p hp => (hplain p hp).2) htok
  · exact convert_of_no_mention m text

/-- Witness for `convertToSlackMention_replaces_mentions`: the map with `alice`
and `bob`; the mention of `bob` in `Hi @alice and @bob!` is replaced by
`<@U456>`, and no `@bob` is left. -/
theorem convertToSlackMention_replaces_mentions_witness :
    convertToSlackMention
        ("Hi @alice and ".toList ++ (mentionPattern "bob".toList ++ "!".toList)) twoMentionMap =
      convertToSlackMention "Hi @alice and ".toList twoMentionMap ++
        (mentionToken "U456".toList ++ convertToSlackMention "!".toList twoMentionMap) ∧
    ¬ containsSubstr (convertToSlackMention "Hi @alice and @bob!".toList twoMentionMap)
      (mentionPattern "bob".toList) :=
  ⟨(convertToSlackMention_replaces_mentions "Hi @alice and @bob!".toList twoMentionMap
      (by decide) (by decide) (by decide) (by decide)).1
      ("bob".toList, "U456".toList) (by decide) "Hi @alice and ".toList "!".toList,
   (convertToSlackMention_replaces_mentions "Hi @alice and @bob!".toList twoMentionMap
      (by decide) (by decide) (by decide) (by decide)).2.1
      ("bob".toList, "U456".toList) (by decide)⟩

/-- Claim C8, as stated, fails.  The logins `al` and `alice` are distinct and
neither is a substring of the other's token, yet `@alice` becomes `<@U1>ice`
when `al` is visited first and `<@U2>` when `alice` is visited first. -/
theorem rewrite_order_matters :
    distinctLogins prefixMentionMap ∧ noLoginInAnotherToken prefixMentionMap ∧
    prefixMentionMap.reverse.Perm prefixMentionMap ∧
    convertToSlackMention "@alice".toList prefixMentionMap = "<@U1>ice".toList ∧
    convertToSlackMention "@alice".toList prefixMentionMap.reverse = "<@U2>".toList := by
  decide

/-- Claim C8, amended.  For every text and every mention map with distinct
logins in which no login contains `@`, `<` or `>`, no login is a prefix of
another login, and no login is a substring of another login's token, any two
orders of visiting the pairs give the same text. -/
theorem convertToSlackMention_order_independent (text : GoString) (m : SlackMentionMapList)
    (hdistinct : distinctLogins m) (hplain : loginsPlain m)
    (hpfx : noLoginPrefixOfAnother m) (htoken : noLoginInAnotherToken m) :
    ∀ m1 m2 : SlackMentionMapList, m1.Perm m → m2.Perm m →
      convertToSlackMention text m1 = convertToSlackMention text m2 := by
  intro m1 m2 h1 h2
  rw [convert_perm text m m1 hdistinct hplain hpfx htoken h1,
    convert_perm text m m2 hdistinct hplain hpfx htoken h2]

/-- Witness for `convertToSlackMention_order_independent`: the map with `alice`
and `bob`, visited in both orders. -/
theorem convertToSlackMention_order_independent_witness :
    convertToSlackMention "Hi @alice and @bob".toList twoMentionMap.reverse =
      convertToSlackMention "Hi @alice and @bob".toList twoMentionMap :=
  convertToSlackMention_order_independent "Hi @alice and @bob".toList twoMentionMap
    (by decide) (by decide) (by decide) (by decide) twoMentionMap.reverse twoMentionMap
    (List.reverse_perm twoMentionMap) (List.Perm.refl twoMentionMap)

/-- Claim C9, as stated, fails.  The token `<@S>` of the map `a< ↦ S` does not
contain `@a<`, yet `@a@a<` becomes `@a<@S>` and rewriting that again gives
`<@S>@S>`. -/
theorem rewrite_twice_differs :
    tokensAvoidMentions bracketMentionMap ∧
    convertToSlackMention "@a@a<".toList bracketMentionMap = "@a<@S>".toList ∧
    convertToSlackMention (convertToSlackMention "@a@a<".toList bracketMentionMap)
      bracketMentionMap = "<@S>@S>".toList := by
  decide

/-- Claim C9, amended.  For every text and every mention map whose logins
contain neither `<` nor `>` and whose tokens `<@slackID>` contain no `@login` of
the map, rewriting twice (in the same order) gives the same text as rewriting
once. -/
theorem convertToSlackMention_idempotent (text : GoString) (m : SlackMentionMapList)
    (hplain : ∀ p ∈ m, avoidsBrackets p.1) (htok : tokensAvoidMentions m) :
    convertToSlackMention (convertToSlackMention text m) m = convertToSlackMention text m := by
  apply convert_of_no_mention
  exact convert_leaves_no_mention text m hplain htok

/-- Witness for `convertToSlackMention_idempotent`: the map with `alice` and
`bob`. -/
theorem convertToSlackMention_idempotent_witness :
    convertToSlackMention
        (convertToSlackMention "Hi @alice and @bob".toList twoMentionMap) twoMentionMap =
      convertToSlackMention "Hi @alice and @bob".toList twoMentionMap :=
  convertToSlackMention_idempotent "Hi @alice and @bob".toList twoMentionMap
    (by decide) (by decide)

end DiscussionsNotify
